import Mathlib

/-!
Shallow embedding of the core of `ibroadcast-uploader.py` (deseven/ibroadcast-uploader):
recursive file discovery (`Uploader.load_files`), content-addressed dedup against a
persisted local MD5 cache and a remote hash manifest (`Uploader.check_md5`,
`Uploader.calcmd5`, `Uploader.__load_md5_int`), and the bounded-concurrency upload
orchestration with per-file outcome accounting (`Uploader.prepare_upload`,
`Uploader.upload`).

Paths are modelled as lists of components (`os.path.join` is list append);
file contents are lists of bytes (`List Nat`); the MD5 cache (a Python dict)
is an association list with first-occurrence lookup and in-place upsert.
-/

namespace IBroadcast

/-- A path, as a list of components (the last component is the basename). -/
abbrev Path := List String

/-- A directory-tree entry: a regular file or a directory with children.
Mirrors what `glob.glob` over the star pattern plus `os.path.isdir`
observes during the recursive walk in `Uploader.load_files`. -/
inductive FSEntry where
  | file (name : String)
  | dir (name : String) (children : List FSEntry)
  deriving Repr

/-- The basename of an entry (`os.path.basename(full_filename)`). -/
def FSEntry.name : FSEntry → String
  | .file n => n
  | .dir n _ => n

/-- Model of the hidden-entry test (basename startswith dot): the first
character of the basename is a dot. -/
def isHidden (name : String) : Bool :=
  match name.toList with
  | '.' :: _ => true
  | _ => false

/-- The suffix of `cs` starting at its last `.` character, if any. -/
def lastDotSuffix : List Char → Option (List Char)
  | [] => none
  | c :: rest =>
    match lastDotSuffix rest with
    | some s => some s
    | none => if c = '.' then some (c :: rest) else none

/-- The extension part of `os.path.splitext` applied to a basename: the suffix
starting at the last dot, provided some non-dot character precedes that dot
(leading dots of a hidden-style name never begin an extension, so a name such
as `.bashrc` has an empty extension). -/
def splitextExt (name : String) : String :=
  match lastDotSuffix ((name.toList).dropWhile (fun c => c = '.')) with
  | some s => ⟨s⟩
  | none => ""

/-- Embedding of `Uploader.load_files`: walk sibling entries under the path `pre`.
For each entry, skip it entirely when its basename starts with `.`; otherwise
append its full path to the result when its `splitext` extension is in
`supported` (note: no regular-file check in the source, so directories with a
matching extension are appended too), and recurse when it is a directory. -/
def load_files (supported : List String) (pre : Path) : List FSEntry → List Path
  | [] => []
  | e :: rest =>
    (if isHidden (FSEntry.name e) then []
     else
       (if splitextExt (FSEntry.name e) ∈ supported then [pre ++ [FSEntry.name e]] else [])
       ++
       (match e with
        | .file _ => []
        | .dir n children => load_files supported (pre ++ [n]) children))
    ++ load_files supported pre rest

/-! ### Hash cache (`self.md5_int`, a Python dict from path to hex digest) -/

/-- The in-memory MD5 cache: an association list with dict semantics
(first-occurrence lookup, in-place upsert). -/
abbrev Cache := List (String × String)

/-- Lookup modelling `filename in self.md5_int` and the read of
`self.md5_int[filename]`. -/
def lookupCache : Cache → String → Option String
  | [], _ => none
  | (p, v) :: rest, q => if p = q then some v else lookupCache rest q

/-- Upsert modelling the write `self.md5_int[filename] = file_md5` (overwrite in place,
append when the key is new). -/
def putCache : Cache → String → String → Cache
  | [], p, h => [(p, h)]
  | (q, v) :: rest, p, h =>
    if q = p then (q, h) :: rest else (q, v) :: putCache rest p h

/-! ### `Uploader.calcmd5`: stream the file in 8192-byte chunks through MD5 -/

/-- The `hashlib.md5` interface used by `calcmd5`: an initial state, a
per-chunk `update`, and a final `hexdigest`. The digest algorithm itself is
library code, kept abstract. -/
structure MD5Impl (σ : Type) where
  init : σ
  update : σ → List Nat → σ
  hexdigest : σ → String

/-- Chunking loop with explicit fuel (each `fh.read(8192)` consumes at least
one byte, so `fuel = length` always suffices; the fuel only bounds the
recursion). -/
def chunksGo : Nat → List Nat → List (List Nat)
  | _, [] => []
  | 0, _ :: _ => []
  | fuel + 1, b :: rest => ((b :: rest).take 8192) :: chunksGo fuel ((b :: rest).drop 8192)

/-- The successive `fh.read(8192)` chunks of the byte content of a file: maximal
8192-byte pieces, in order, until the read comes back empty. -/
def chunks8192 (l : List Nat) : List (List Nat) :=
  chunksGo l.length l

/-- Embedding of `Uploader.calcmd5`: fold `update` over the 8192-byte chunks of the file at
`filePath` and return the hex digest. `fs` maps a path to its byte content. -/
def calcmd5 {σ : Type} (md5 : MD5Impl σ) (fs : String → List Nat) (filePath : String) : String :=
  md5.hexdigest ((chunks8192 (fs filePath)).foldl md5.update md5.init)

/-! ### Hash resolution inside `Uploader.check_md5` (lines 300-312) -/

/-- Result of one hash resolution: the hash, the cache afterwards, and
how many full-content reads (`calcmd5` calls) were performed. -/
structure ResolveResult where
  hash : String
  cache : Cache
  reads : Nat
  deriving Repr, DecidableEq

/-- Lines 300-312 of `check_md5`: if `not self.no_cache` and the path is in
`self.md5_int`, take the cached hash (no file read); otherwise run `calcmd5`
and store the result in the cache. -/
def resolveHash {σ : Type} (md5 : MD5Impl σ) (noCache : Bool) (fs : String → List Nat)
    (cache : Cache) (path : String) : ResolveResult :=
  match noCache, lookupCache cache path with
  | false, some v => { hash := v, cache := cache, reads := 0 }
  | false, none =>
    let h := calcmd5 md5 fs path
    { hash := h, cache := putCache cache path h, reads := 1 }
  | true, _ =>
    let h := calcmd5 md5 fs path
    { hash := h, cache := putCache cache path h, reads := 1 }

/-! ### The dedup loop of `Uploader.check_md5` -/

/-- The mutable state the `check_md5` loop works on: `self.files` (the work
list), `self.skipped_files`, and `self.md5_int`. -/
structure DedupState where
  files : List String
  skipped : List String
  cache : Cache
  deriving Repr

/-- One iteration of the `check_md5` loop body for `filename`: resolve the
hash; when it is in `self.md5_ext` and `self.reupload is False`, append the
file to `skipped_files` and `self.files.remove(filename)` (first occurrence). -/
def checkStep {σ : Type} (md5 : MD5Impl σ) (noCache reupload : Bool) (md5ext : List String)
    (fs : String → List Nat) (st : DedupState) (filename : String) : DedupState :=
  let r := resolveHash md5 noCache fs st.cache filename
  if r.hash ∈ md5ext ∧ reupload = false then
    { files := st.files.erase filename
      skipped := st.skipped ++ [filename]
      cache := r.cache }
  else
    { st with cache := r.cache }

/-- The `for filename in file_list` loop of `check_md5`, iterating over a
copy of the original file list while mutating the state. -/
def runDedup {σ : Type} (md5 : MD5Impl σ) (noCache reupload : Bool) (md5ext : List String)
    (fs : String → List Nat) : List String → DedupState → DedupState
  | [], st => st
  | f :: rest, st => runDedup md5 noCache reupload md5ext fs rest (checkStep md5 noCache reupload md5ext fs st f)

/-- Embedding of `Uploader.check_md5` (dedup part): run the loop over a copy of
`self.files`, starting with an empty `skipped_files` list (as set by
`get_supported_types`) and the loaded cache `cache0`. -/
def check_md5 {σ : Type} (md5 : MD5Impl σ) (noCache reupload : Bool) (md5ext : List String)
    (fs : String → List Nat) (files : List String) (cache0 : Cache) : DedupState :=
  runDedup md5 noCache reupload md5ext fs files { files := files, skipped := [], cache := cache0 }

/-- The hash a file resolves to in a run that starts from cache `cache0`
(order-independent for distinct paths: either the initial cache entry or the
freshly computed digest). -/
def resolvedHash {σ : Type} (md5 : MD5Impl σ) (noCache : Bool) (fs : String → List Nat)
    (cache0 : Cache) (f : String) : String :=
  (resolveHash md5 noCache fs cache0 f).hash

/-- Whether the dedup loop classifies `f` as skipped: its resolved hash is in
the remote manifest and `reupload` is off. -/
def skippedByDedup {σ : Type} (md5 : MD5Impl σ) (noCache reupload : Bool) (md5ext : List String)
    (fs : String → List Nat) (cache0 : Cache) (f : String) : Bool :=
  decide (resolvedHash md5 noCache fs cache0 f ∈ md5ext) && !reupload

/-! ### `Uploader.upload` and the transport boundary -/

/-- What the transport call in `upload` reports for one file: an HTTP-level
response carrying the parsed result flag, or a non-success HTTP status
(`not response.ok`). -/
inductive TransportResult where
  | ok (result : Bool)
  | badStatus (code : Nat)
  deriving Repr, DecidableEq

/-- The exceptions `upload` can raise: `ServerError` (bad HTTP status) or
`ValueError` raised on an upload rejection. -/
inductive UploadError where
  | serverError (code : Nat)
  | valueError
  deriving Repr, DecidableEq

/-- The observable effect of one `Uploader.upload(filename)` call:
whether `self.failed_files.append(filename)` ran, and which exception (if
any) escaped the call into the future held by the executor. -/
structure UploadEffect where
  recordedFailed : Bool
  exception : Option UploadError
  deriving Repr, DecidableEq

/-- Embedding of `Uploader.upload` (lines 399-407): on `not response.ok` raise
`ServerError` (note: *before* any `failed_files` append); on `result is
False` append to `failed_files` and then raise `ValueError`; otherwise
return normally. -/
def upload (transport : String → TransportResult) (filename : String) : UploadEffect :=
  match transport filename with
  | .badStatus c => { recordedFailed := false, exception := some (.serverError c) }
  | .ok false => { recordedFailed := true, exception := some .valueError }
  | .ok true => { recordedFailed := false, exception := none }

/-! ### `Uploader.prepare_upload`: orchestration and the final report -/

/-- The final `Uploaded/Skipped/Failed/Total` line. `uploaded` is a Python
int (`max(total_files-skipped-failed, 0)`), so it is modelled over `Int`. -/
structure RunReport where
  uploaded : Int
  skipped : Nat
  failed : Nat
  total : Nat
  deriving Repr, DecidableEq

/-- The contents of `self.failed_files` after the pool has drained: the
executor runs every submitted `upload` to completion and swallows any
exception it raised (the futures are never inspected), so exactly the files
whose `upload` call appended to `failed_files` appear, and an exception in
one worker never prevents the remaining submitted uploads from running. -/
def failedFilesAfterUploads (transport : String → TransportResult) (toUpload : List String) : List String :=
  toUpload.filter (fun f => (upload transport f).recordedFailed)

/-- Embedding of `Uploader.prepare_upload`: take `total_files = len(self.files)` before
dedup, run `check_md5`, submit every remaining file to the thread pool, wait
for the pool to drain, and compute the summary counts. -/
def prepare_upload {σ : Type} (md5 : MD5Impl σ) (noCache reupload : Bool) (md5ext : List String)
    (fs : String → List Nat) (transport : String → TransportResult)
    (files : List String) (cache0 : Cache) : RunReport :=
  let total := files.length
  let st := check_md5 md5 noCache reupload md5ext fs files cache0
  let failedFiles := failedFilesAfterUploads transport st.files
  let skipped := st.skipped.length
  let failed := failedFiles.length
  { uploaded := max ((total : Int) - (skipped : Int) - (failed : Int)) 0
    skipped := skipped
    failed := failed
    total := total }

/-! ### Event trace of a run (for the temporal cache-write claim) -/

/-- Observable events of one `prepare_upload` run, in program order. -/
inductive Event where
  | resolveEvt (f : String)
  | cacheWrite
  | dispatch (f : String)
  | workerDone (f : String)
  | join
  | reportEvt
  deriving Repr, DecidableEq

/-- The event trace of `prepare_upload`: `check_md5` resolves a hash for
every candidate and then writes the persisted cache file (lines 332-333, at
the end of `check_md5`); only afterwards does `prepare_upload` submit the
remaining files to the pool, wait for them, and print the report. Worker
completions are placed between dispatch and join (their mutual order is
immaterial here: every completion follows its dispatch and precedes the
join). -/
def prepareUploadTrace {σ : Type} (md5 : MD5Impl σ) (noCache reupload : Bool) (md5ext : List String)
    (fs : String → List Nat) (files : List String) (cache0 : Cache) : List Event :=
  let st := check_md5 md5 noCache reupload md5ext fs files cache0
  (files.map Event.resolveEvt)
    ++ [Event.cacheWrite]
    ++ (st.files.map Event.dispatch)
    ++ (st.files.map Event.workerDone)
    ++ [Event.join, Event.reportEvt]

/-! ### Persisted cache file: JSON round-trip (`__load_md5_int` / the
`json.dump` at the end of `check_md5`) -/

/-- The fragment of JSON the cache file uses: strings and objects. -/
inductive J where
  | str (s : String)
  | obj (entries : List (String × J))
  deriving Repr

/-- Encoding performed by `json.dump` on `self.md5_int`: the cache as a JSON object
mapping each path to its hex digest string. -/
def encodeCache (m : Cache) : J :=
  .obj (m.map (fun p => (p.1, .str p.2)))

/-- Decode the entries of a cache object; any non-string value is malformed. -/
def decodeEntries : List (String × J) → Option Cache
  | [] => some []
  | (k, .str v) :: rest => (decodeEntries rest).map (fun m => (k, v) :: m)
  | (_, .obj _) :: _ => none

/-- Parsing by `json.load` specialised to the cache file: anything but an
object of strings fails to parse into a path-to-hash mapping. -/
def decodeCache : J → Option Cache
  | .obj es => decodeEntries es
  | .str _ => none

/-- Embedding of the private load of the internal MD5 database
(double-underscore `load_md5_int` method): if the cache file exists, parse it
(`json.load`); otherwise start with the empty dict.
`none` models an uncaught parse exception on malformed content. -/
def load_md5_int (file : Option J) : Option Cache :=
  match file with
  | none => some []
  | some j => decodeCache j

/-- The persisted cache file content after `check_md5` finishes: the full
current mapping, written by reopening the file for writing and running
`json.dump`, independent of
whatever the file held before. -/
def persistedAfterRun {σ : Type} (md5 : MD5Impl σ) (noCache reupload : Bool) (md5ext : List String)
    (fs : String → List Nat) (files : List String) (cache0 : Cache)
    (_prior : Option J) : J :=
  encodeCache (check_md5 md5 noCache reupload md5ext fs files cache0).cache

/-! ### Worker pool (`ThreadPoolExecutor(max_workers=threads)`) and the
`--parallel-uploads` argument -/

/-- State of the executor: files not yet started, uploads in flight, and
finished uploads. -/
structure PoolState where
  queued : List String
  running : List String
  done : List String
  deriving Repr, DecidableEq

/-- Transition relation of `ThreadPoolExecutor(max_workers=maxW)`: a queued
task may start only while fewer than `maxW` tasks are running; a running task
may finish at any time. -/
inductive PoolStep (maxW : Nat) : PoolState → PoolState → Prop where
  | start (f : String) (queued running done : List String) :
      running.length < maxW →
      PoolStep maxW ⟨f :: queued, running, done⟩ ⟨queued, f :: running, done⟩
  | finish (f : String) (queued running done : List String) :
      f ∈ running →
      PoolStep maxW ⟨queued, running, done⟩ ⟨queued, running.erase f, f :: done⟩

/-- Pool states reachable from the initial state in which every file of
`toUpload` has been submitted and nothing has started. -/
def PoolReachable (maxW : Nat) (toUpload : List String) : PoolState → Prop :=
  Relation.ReflTransGen (PoolStep maxW) ⟨toUpload, [], []⟩

/-- The `argparse` contract of the `parallel-uploads` option
(`choices=range(1,7)`): values outside 1..6 are rejected by the parser before
any work is scheduled. -/
def parseParallelUploads (n : Int) : Option Int :=
  if 1 ≤ n ∧ n ≤ 6 then some n else none

/-! ### Concrete instances used to exercise the model -/

/-- A small concrete digest implementation (the digest algorithm is opaque to
the claims; only the streaming structure matters). -/
def md5Ex : MD5Impl (List Nat) where
  init := []
  update := (· ++ ·)
  hexdigest := fun l => String.mk (l.map fun n => if n % 2 = 0 then 'e' else 'o')

/-- A tiny filesystem content map. -/
def fsEx : String → List Nat := fun p => if p = "a.mp3" then [1, 2] else [3]

/-- A pre-populated hash cache. -/
def cacheEx : Cache := [("a.mp3", "h1"), ("b.flac", "h2")]

/-- The scanner scenario directory contents: two supported files, a hidden
file, and a file with an unsupported extension. -/
def scanEx : List FSEntry :=
  [.file "a.mp3", .file "b.flac", .file ".hidden.mp3", .file "c.txt"]

/-- A transport that reports a non-success HTTP status for `b.flac` and
succeeds for everything else. -/
def transportBad : String → TransportResult :=
  fun f => if f = "b.flac" then .badStatus 500 else .ok true

/-- A transport whose upload call succeeds at the HTTP level but returns
`result = false` (application-level rejection). -/
def transportReject : String → TransportResult := fun _ => .ok false

/-! ## Supporting lemmas -/

theorem lookupCache_putCache_ne (c : Cache) (p h q : String) (hq : q ≠ p) :
    lookupCache (putCache c p h) q = lookupCache c q := by
  induction c with
  | nil =>
    have : ¬p = q := fun hpq => hq hpq.symm
    simp [putCache, lookupCache, this]
  | cons head tail ih =>
    obtain ⟨a, b⟩ := head
    by_cases hap : a = p
    · subst hap
      simp only [putCache, if_pos rfl, lookupCache]
      rw [if_neg (fun h => hq h.symm), if_neg (fun h => hq h.symm)]
    · simp only [putCache, if_neg hap, lookupCache]
      by_cases haq : a = q
      · simp [haq]
      · simp [haq, ih]

theorem lookupCache_putCache_self (c : Cache) (p h : String) :
    lookupCache (putCache c p h) p = some h := by
  induction c with
  | nil => simp [putCache, lookupCache]
  | cons head tail ih =>
    obtain ⟨a, b⟩ := head
    by_cases hap : a = p
    · subst hap; simp [putCache, lookupCache]
    · simp [putCache, hap, lookupCache, ih]

theorem resolveHash_hash_congr {σ : Type} (md5 : MD5Impl σ) (noCache : Bool)
    (fs : String → List Nat) {c c' : Cache} (f : String)
    (h : lookupCache c f = lookupCache c' f) :
    (resolveHash md5 noCache fs c f).hash = (resolveHash md5 noCache fs c' f).hash := by
  cases noCache
  · cases hc : lookupCache c f with
    | some v => rw [hc] at h; simp [resolveHash, hc, h.symm]
    | none => rw [hc] at h; simp [resolveHash, hc, h.symm]
  · simp [resolveHash]

theorem resolveHash_cache_lookup_ne {σ : Type} (md5 : MD5Impl σ) (noCache : Bool)
    (fs : String → List Nat) (c : Cache) (f g : String) (hg : g ≠ f) :
    lookupCache (resolveHash md5 noCache fs c f).cache g = lookupCache c g := by
  cases noCache
  · cases hc : lookupCache c f with
    | some v => simp [resolveHash, hc]
    | none => simp [resolveHash, hc, lookupCache_putCache_ne _ _ _ _ hg]
  · simp [resolveHash, lookupCache_putCache_ne _ _ _ _ hg]

theorem skippedByDedup_eq_true {σ : Type} (md5 : MD5Impl σ) (noCache reupload : Bool)
    (md5ext : List String) (fs : String → List Nat) (cache0 : Cache) (f : String) :
    skippedByDedup md5 noCache reupload md5ext fs cache0 f = true ↔
      (resolvedHash md5 noCache fs cache0 f ∈ md5ext ∧ reupload = false) := by
  simp [skippedByDedup, Bool.and_eq_true, Bool.not_eq_true']

theorem runDedup_spec {σ : Type} (md5 : MD5Impl σ) (noCache reupload : Bool)
    (md5ext : List String) (fs : String → List Nat) (cache0 : Cache) :
    ∀ (todo : List String) (st : DedupState),
      todo.Nodup →
      (∀ f ∈ todo, lookupCache st.cache f = lookupCache cache0 f) →
      (runDedup md5 noCache reupload md5ext fs todo st).skipped
          = st.skipped ++ todo.filter (skippedByDedup md5 noCache reupload md5ext fs cache0) ∧
      (runDedup md5 noCache reupload md5ext fs todo st).files
          = (todo.filter (skippedByDedup md5 noCache reupload md5ext fs cache0)).foldl List.erase st.files := by
  intro todo
  induction todo with
  | nil => intro st _ _; simp [runDedup]
  | cons f rest ih =>
    intro st hnd hagree
    have hfmem : f ∈ f :: rest := List.mem_cons_self f rest
    have hhash : (resolveHash md5 noCache fs st.cache f).hash = resolvedHash md5 noCache fs cache0 f :=
      resolveHash_hash_congr md5 noCache fs f (hagree f hfmem)
    have hndrest : rest.Nodup := hnd.of_cons
    have hfnotin : f ∉ rest := (List.nodup_cons.mp hnd).1
    -- the state after processing f
    set st' := checkStep md5 noCache reupload md5ext fs st f with hst'
    have hagree' : ∀ g ∈ rest, lookupCache st'.cache g = lookupCache cache0 g := by
      intro g hg
      have hgf : g ≠ f := fun hgf => hfnotin (hgf ▸ hg)
      have hcache : st'.cache = (resolveHash md5 noCache fs st.cache f).cache := by
        rw [hst']
        unfold checkStep
        by_cases hc : (resolveHash md5 noCache fs st.cache f).hash ∈ md5ext ∧ reupload = false
        · simp [hc]
        · simp [hc]
      rw [hcache, resolveHash_cache_lookup_ne md5 noCache fs st.cache f g hgf]
      exact hagree g (List.mem_cons_of_mem f hg)
    have hrun : runDedup md5 noCache reupload md5ext fs (f :: rest) st
        = runDedup md5 noCache reupload md5ext fs rest st' := rfl
    obtain ⟨ihs, ihf⟩ := ih st' hndrest hagree'
    by_cases hskip : resolvedHash md5 noCache fs cache0 f ∈ md5ext ∧ reupload = false
    · have hb : skippedByDedup md5 noCache reupload md5ext fs cache0 f = true :=
        (skippedByDedup_eq_true md5 noCache reupload md5ext fs cache0 f).mpr hskip
      have hstep : st' = { files := st.files.erase f, skipped := st.skipped ++ [f], cache := (resolveHash md5 noCache fs st.cache f).cache } := by
        rw [hst']
        simp only [checkStep]
        rw [hhash]
        simp [hskip]
      constructor
      · rw [hrun, ihs, hstep]
        simp [List.filter_cons, hb, List.append_assoc]
      · rw [hrun, ihf, hstep]
        simp [List.filter_cons, hb]
    · have hb : skippedByDedup md5 noCache reupload md5ext fs cache0 f = false := by
        rw [Bool.eq_false_iff]
        intro h
        exact hskip ((skippedByDedup_eq_true md5 noCache reupload md5ext fs cache0 f).mp h)
      have hstep : st' = { files := st.files, skipped := st.skipped, cache := (resolveHash md5 noCache fs st.cache f).cache } := by
        rw [hst']
        simp only [checkStep]
        rw [hhash]
        simp [hskip]
      constructor
      · rw [hrun, ihs, hstep]
        simp [List.filter_cons, hb]
      · rw [hrun, ihf, hstep]
        simp [List.filter_cons, hb]

theorem foldl_erase_eq_filter :
    ∀ (s l : List String), l.Nodup →
      s.foldl List.erase l = l.filter (fun x => !(s.contains x)) := by
  intro s
  induction s with
  | nil => intro l _; simp
  | cons a srest ih =>
    intro l hnd
    have h1 : (a :: srest).foldl List.erase l = srest.foldl List.erase (l.erase a) := rfl
    rw [h1, ih (l.erase a) (hnd.erase a), hnd.erase_eq_filter a, List.filter_filter]
    apply List.filter_congr
    intro x _
    by_cases hxa : x = a
    · subst hxa; simp
    · by_cases hxs : srest.contains x <;> simp [hxa, hxs, bne_iff_ne]

theorem check_md5_filter_characterization {σ : Type} (md5 : MD5Impl σ) (noCache reupload : Bool)
    (md5ext : List String) (fs : String → List Nat) (files : List String) (cache0 : Cache)
    (hnd : files.Nodup) :
    (check_md5 md5 noCache reupload md5ext fs files cache0).skipped
        = files.filter (skippedByDedup md5 noCache reupload md5ext fs cache0) ∧
    (check_md5 md5 noCache reupload md5ext fs files cache0).files
        = files.filter (fun f => !(skippedByDedup md5 noCache reupload md5ext fs cache0 f)) := by
  obtain ⟨hs, hf⟩ := runDedup_spec md5 noCache reupload md5ext fs cache0 files
    { files := files, skipped := [], cache := cache0 } hnd (fun f _ => rfl)
  refine ⟨by simpa [check_md5] using hs, ?_⟩
  simp only [check_md5]
  rw [hf, foldl_erase_eq_filter _ _ hnd]
  apply List.filter_congr
  intro x hx
  by_cases hp : skippedByDedup md5 noCache reupload md5ext fs cache0 x
  · simp [hp, List.mem_filter, hx]
  · simp only [Bool.not_eq_true] at hp
    simp [hp, List.mem_filter]

/-! ## Claim theorems -/

/-- Claim C1: for every candidate file, when `forceReupload` is false and the
resolved content hash is present in the remote manifest, the dedup loop
classifies the file as skipped and removes it from the work list (so it is not
in the to-upload list); when the hash is absent from the manifest (or
`forceReupload` is true) the file remains a pending upload; and a skipped file
never also appears in the to-upload list. Candidate paths are distinct (the
scanner visits each path once), hence the `Nodup` hypothesis. -/
theorem check_md5_dedup_partition {σ : Type} (md5 : MD5Impl σ) (noCache reupload : Bool)
    (md5ext : List String) (fs : String → List Nat) (files : List String) (cache0 : Cache)
    (hnd : files.Nodup) :
    (∀ f ∈ files, reupload = false → resolvedHash md5 noCache fs cache0 f ∈ md5ext →
        f ∈ (check_md5 md5 noCache reupload md5ext fs files cache0).skipped ∧
        f ∉ (check_md5 md5 noCache reupload md5ext fs files cache0).files) ∧
    (∀ f ∈ files, (reupload = true ∨ resolvedHash md5 noCache fs cache0 f ∉ md5ext) →
        f ∈ (check_md5 md5 noCache reupload md5ext fs files cache0).files ∧
        f ∉ (check_md5 md5 noCache reupload md5ext fs files cache0).skipped) ∧
    (∀ f ∈ (check_md5 md5 noCache reupload md5ext fs files cache0).skipped,
        f ∉ (check_md5 md5 noCache reupload md5ext fs files cache0).files) := by
  obtain ⟨hs, hf⟩ := check_md5_filter_characterization md5 noCache reupload md5ext fs files cache0 hnd
  rw [hs, hf]
  refine ⟨?_, ?_, ?_⟩
  · intro f hfm hre hhash
    have hb : skippedByDedup md5 noCache reupload md5ext fs cache0 f = true :=
      (skippedByDedup_eq_true md5 noCache reupload md5ext fs cache0 f).mpr ⟨hhash, hre⟩
    refine ⟨List.mem_filter.mpr ⟨hfm, hb⟩, fun hcon => ?_⟩
    have h2 := (List.mem_filter.mp hcon).2
    rw [hb] at h2
    exact absurd h2 (by simp)
  · intro f hfm hcase
    have hb : skippedByDedup md5 noCache reupload md5ext fs cache0 f = false := by
      rw [Bool.eq_false_iff]
      intro h
      obtain ⟨h1, h2⟩ := (skippedByDedup_eq_true md5 noCache reupload md5ext fs cache0 f).mp h
      rcases hcase with h3 | h3
      · rw [h3] at h2; cases h2
      · exact h3 h1
    refine ⟨List.mem_filter.mpr ⟨hfm, by simp [hb]⟩, fun hcon => ?_⟩
    have h2 := (List.mem_filter.mp hcon).2
    rw [hb] at h2
    cases h2
  · intro f hsk hcon
    have h1 := (List.mem_filter.mp hsk).2
    have h2 := (List.mem_filter.mp hcon).2
    rw [h1] at h2
    exact absurd h2 (by simp)

/-- Witness for C1: with the remote manifest holding the cached hash of
`a.mp3` only, the dedup pass skips `a.mp3` (and removes it from the work
list) while `b.flac` stays pending. -/
theorem check_md5_dedup_partition_witness :
    ("a.mp3" ∈ (check_md5 md5Ex false false ["h1"] fsEx ["a.mp3", "b.flac"] cacheEx).skipped ∧
     "a.mp3" ∉ (check_md5 md5Ex false false ["h1"] fsEx ["a.mp3", "b.flac"] cacheEx).files) ∧
    ("b.flac" ∈ (check_md5 md5Ex false false ["h1"] fsEx ["a.mp3", "b.flac"] cacheEx).files ∧
     "b.flac" ∉ (check_md5 md5Ex false false ["h1"] fsEx ["a.mp3", "b.flac"] cacheEx).skipped) :=
  ⟨(check_md5_dedup_partition md5Ex false false ["h1"] fsEx ["a.mp3", "b.flac"] cacheEx
      (by decide)).1 "a.mp3" (by decide) rfl (by decide),
   (check_md5_dedup_partition md5Ex false false ["h1"] fsEx ["a.mp3", "b.flac"] cacheEx
      (by decide)).2.1 "b.flac" (by decide) (Or.inr (by decide))⟩

/-- Claim C2: the final report satisfies
`uploaded = max(total - skipped - failed, 0)`, where `total` is the candidate
count taken before dedup, `skipped` the count classified skipped during
dedup, and `failed` the count of recorded failed outcomes. -/
theorem prepare_upload_report_formula {σ : Type} (md5 : MD5Impl σ) (noCache reupload : Bool)
    (md5ext : List String) (fs : String → List Nat) (transport : String → TransportResult)
    (files : List String) (cache0 : Cache) :
    (prepare_upload md5 noCache reupload md5ext fs transport files cache0).uploaded
        = max (((prepare_upload md5 noCache reupload md5ext fs transport files cache0).total : Int)
            - ((prepare_upload md5 noCache reupload md5ext fs transport files cache0).skipped : Int)
            - ((prepare_upload md5 noCache reupload md5ext fs transport files cache0).failed : Int)) 0 ∧
    (prepare_upload md5 noCache reupload md5ext fs transport files cache0).total = files.length ∧
    (prepare_upload md5 noCache reupload md5ext fs transport files cache0).skipped
        = (check_md5 md5 noCache reupload md5ext fs files cache0).skipped.length ∧
    (prepare_upload md5 noCache reupload md5ext fs transport files cache0).failed
        = (failedFilesAfterUploads transport (check_md5 md5 noCache reupload md5ext fs files cache0).files).length :=
  ⟨rfl, rfl, rfl, rfl⟩

/-- Claim C4: with `forceRecompute` off, a cached path resolves to the cached
hash with no content read; an uncached path is hashed by streaming (via
`calcmd5`), stored, and returned, and the immediately following call returns
the same hash with no further read; with `forceRecompute` on, the hash is
always recomputed. -/
theorem resolveHash_cache_hit_or_compute {σ : Type} (md5 : MD5Impl σ)
    (fs : String → List Nat) (cache : Cache) (path : String) :
    (∀ v, lookupCache cache path = some v →
        resolveHash md5 false fs cache path = { hash := v, cache := cache, reads := 0 }) ∧
    (lookupCache cache path = none →
        resolveHash md5 false fs cache path
            = { hash := calcmd5 md5 fs path
                cache := putCache cache path (calcmd5 md5 fs path)
                reads := 1 } ∧
        resolveHash md5 false fs (putCache cache path (calcmd5 md5 fs path)) path
            = { hash := calcmd5 md5 fs path
                cache := putCache cache path (calcmd5 md5 fs path)
                reads := 0 }) ∧
    (resolveHash md5 true fs cache path
        = { hash := calcmd5 md5 fs path
            cache := putCache cache path (calcmd5 md5 fs path)
            reads := 1 }) := by
  refine ⟨?_, ?_, ?_⟩
  · intro v hv
    simp [resolveHash, hv]
  · intro hnone
    exact ⟨by simp [resolveHash, hnone], by simp [resolveHash, lookupCache_putCache_self]⟩
  · simp [resolveHash]

/-- Witness for C4: a cache hit returns the stored hash without reading; a
miss on the empty cache computes, stores, and the repeated call reads
nothing. -/
theorem resolveHash_cache_hit_or_compute_witness :
    resolveHash md5Ex false fsEx cacheEx "a.mp3" = { hash := "h1", cache := cacheEx, reads := 0 } ∧
    resolveHash md5Ex false fsEx [] "a.mp3"
        = { hash := calcmd5 md5Ex fsEx "a.mp3"
            cache := putCache [] "a.mp3" (calcmd5 md5Ex fsEx "a.mp3")
            reads := 1 } ∧
    resolveHash md5Ex false fsEx (putCache [] "a.mp3" (calcmd5 md5Ex fsEx "a.mp3")) "a.mp3"
        = { hash := calcmd5 md5Ex fsEx "a.mp3"
            cache := putCache [] "a.mp3" (calcmd5 md5Ex fsEx "a.mp3")
            reads := 0 } :=
  ⟨(resolveHash_cache_hit_or_compute md5Ex fsEx cacheEx "a.mp3").1 "h1" rfl,
   ((resolveHash_cache_hit_or_compute md5Ex fsEx [] "a.mp3").2.1 rfl).1,
   ((resolveHash_cache_hit_or_compute md5Ex fsEx [] "a.mp3").2.1 rfl).2⟩

/-- Claim C5 (code bug, evaluated at the failing input): when the transport
reports a non-success status for `b.flac`, the worker raises `ServerError`
before any `failed_files` append and the fire-and-forget executor drops the
exception, so the file is never recorded as failed: the run-level report
counts zero failures and counts the transport-failed file as uploaded. The
remaining uploads do proceed. -/
theorem upload_serverError_unrecorded :
    (upload transportBad "b.flac").recordedFailed = false ∧
    (upload transportBad "b.flac").exception = some (.serverError 500) ∧
    failedFilesAfterUploads transportBad ["a.mp3", "b.flac"] = [] ∧
    (prepare_upload md5Ex false false [] fsEx transportBad ["a.mp3", "b.flac"] cacheEx).failed = 0 ∧
    (prepare_upload md5Ex false false [] fsEx transportBad ["a.mp3", "b.flac"] cacheEx).uploaded = 2 := by
  decide

/-- Counterexample for C6: at a concrete application-level rejection
(`result = false`), the `upload` call does raise an exception
(`ValueError`), so the claim that the outcome is recorded without raising is
false as stated. -/
theorem upload_rejection_raises :
    ¬((upload transportReject "b.flac").recordedFailed = true ∧
      (upload transportReject "b.flac").exception = none) := by
  decide

/-- Claim C6 as amended: on an application-level rejection the worker records
the file in `failed_files` and then raises `ValueError`; the executor
swallows the exception, so the run continues and the uploads queued before
and after the rejected file are processed unaffected. -/
theorem upload_rejection_recorded_run_continues
    (transport : String → TransportResult) (f : String)
    (h : transport f = .ok false) :
    (upload transport f).recordedFailed = true ∧
    (upload transport f).exception = some .valueError ∧
    ∀ l1 l2 : List String,
      failedFilesAfterUploads transport (l1 ++ f :: l2)
        = failedFilesAfterUploads transport l1 ++ f :: failedFilesAfterUploads transport l2 := by
  refine ⟨by simp [upload, h], by simp [upload, h], ?_⟩
  intro l1 l2
  simp [failedFilesAfterUploads, List.filter_append, List.filter_cons, upload, h]

/-- Witness for C6 (amended): the rejected `b.flac` is recorded as failed and
its neighbours in the queue are still processed. -/
theorem upload_rejection_recorded_run_continues_witness :
    (upload transportReject "b.flac").recordedFailed = true ∧
    failedFilesAfterUploads transportReject (["a.mp3"] ++ "b.flac" :: ["c.mp3"])
      = failedFilesAfterUploads transportReject ["a.mp3"]
          ++ "b.flac" :: failedFilesAfterUploads transportReject ["c.mp3"] :=
  ⟨(upload_rejection_recorded_run_continues transportReject "b.flac" rfl).1,
   (upload_rejection_recorded_run_continues transportReject "b.flac" rfl).2.2 ["a.mp3"] ["c.mp3"]⟩

/-- Counterexample for C7: in a concrete run with one pending upload, the
single cache-file write happens before the dispatched worker completes (the
write ends the dedup phase, which precedes all dispatching), refuting the
claim that the write happens only after all dispatched workers have
finished. -/
theorem cacheWrite_precedes_worker_completion :
    Event.dispatch "b.flac"
        ∈ prepareUploadTrace md5Ex false false ["h1"] fsEx ["a.mp3", "b.flac"] cacheEx ∧
    ¬((prepareUploadTrace md5Ex false false ["h1"] fsEx ["a.mp3", "b.flac"] cacheEx).indexOf
          (Event.workerDone "b.flac")
        < (prepareUploadTrace md5Ex false false ["h1"] fsEx ["a.mp3", "b.flac"] cacheEx).indexOf
          Event.cacheWrite) := by
  decide

/-- Claim C7 as amended: the persisted cache file is written exactly once per
run, and that single write happens at the end of the dedup phase, before any
upload worker is dispatched (no dispatch or completion event precedes it);
the write replaces any prior file content with the full current mapping. -/
theorem cacheWrite_once_before_dispatch {σ : Type} (md5 : MD5Impl σ)
    (noCache reupload : Bool) (md5ext : List String) (fs : String → List Nat)
    (files : List String) (cache0 : Cache) :
    ((prepareUploadTrace md5 noCache reupload md5ext fs files cache0).count Event.cacheWrite = 1) ∧
    (∃ pre post,
        prepareUploadTrace md5 noCache reupload md5ext fs files cache0
            = pre ++ Event.cacheWrite :: post ∧
        (∀ f, Event.dispatch f ∉ pre) ∧
        (∀ f, Event.workerDone f ∉ pre) ∧
        Event.cacheWrite ∉ pre ∧ Event.cacheWrite ∉ post) ∧
    (∀ prior, persistedAfterRun md5 noCache reupload md5ext fs files cache0 prior
        = encodeCache (check_md5 md5 noCache reupload md5ext fs files cache0).cache) := by
  set st := check_md5 md5 noCache reupload md5ext fs files cache0 with hst
  have htrace : prepareUploadTrace md5 noCache reupload md5ext fs files cache0
      = (files.map Event.resolveEvt)
          ++ Event.cacheWrite
            :: (st.files.map Event.dispatch ++ st.files.map Event.workerDone
                ++ [Event.join, Event.reportEvt]) := by
    simp [prepareUploadTrace, hst]
  have hpre1 : ∀ f, Event.dispatch f ∉ files.map Event.resolveEvt := by
    intro f hmem
    obtain ⟨x, _, hx⟩ := List.mem_map.mp hmem
    cases hx
  have hpre2 : ∀ f, Event.workerDone f ∉ files.map Event.resolveEvt := by
    intro f hmem
    obtain ⟨x, _, hx⟩ := List.mem_map.mp hmem
    cases hx
  have hpre3 : Event.cacheWrite ∉ files.map Event.resolveEvt := by
    intro hmem
    obtain ⟨x, _, hx⟩ := List.mem_map.mp hmem
    cases hx
  have hpost : Event.cacheWrite
      ∉ st.files.map Event.dispatch ++ st.files.map Event.workerDone
          ++ [Event.join, Event.reportEvt] := by
    intro hmem
    rcases List.mem_append.mp hmem with hmem' | hmem'
    · rcases List.mem_append.mp hmem' with hmem'' | hmem''
      · obtain ⟨x, _, hx⟩ := List.mem_map.mp hmem''
        cases hx
      · obtain ⟨x, _, hx⟩ := List.mem_map.mp hmem''
        cases hx
    · simp at hmem'
  refine ⟨?_, ⟨_, _, htrace, hpre1, hpre2, hpre3, hpost⟩, fun _ => rfl⟩
  rw [htrace, List.count_append, List.count_cons]
  rw [List.count_eq_zero_of_not_mem hpre3, List.count_eq_zero_of_not_mem hpost]
  simp

/-- Claim C8: persisting the hash cache (`json.dump` of the full mapping) and
loading it back (`json.load`) yields the identical mapping, and loading an
absent cache file yields the empty mapping. -/
theorem cache_json_roundtrip :
    (∀ m : Cache, load_md5_int (some (encodeCache m)) = some m) ∧
    load_md5_int none = some [] := by
  refine ⟨fun m => ?_, rfl⟩
  have h : ∀ m : Cache, decodeEntries (m.map fun p => (p.1, J.str p.2)) = some m := by
    intro m
    induction m with
    | nil => rfl
    | cons p rest ih =>
      obtain ⟨k, v⟩ := p
      simp [decodeEntries, ih]
  simp [load_md5_int, encodeCache, decodeCache, h]

/-- Claim C9: with concurrency `N` in 1..6, no pool state reachable from the
initial submission has more than `N` uploads in flight, and a
parallel-uploads value outside 1..6 is rejected by the argument parser
(before any work is scheduled), while values inside the range are accepted. -/
theorem pool_concurrency_bound (N : Nat) (hN1 : 1 ≤ N) (hN6 : N ≤ 6) :
    (∀ (toUpload : List String) (s : PoolState),
        PoolReachable N toUpload s → s.running.length ≤ N) ∧
    (∀ n : Int, (1 ≤ n ∧ n ≤ 6) → parseParallelUploads n = some n) ∧
    (∀ n : Int, ¬(1 ≤ n ∧ n ≤ 6) → parseParallelUploads n = none) := by
  refine ⟨?_, ?_, ?_⟩
  · intro toUpload s hreach
    induction hreach with
    | refl => simp
    | tail hsteps hstep ih =>
      cases hstep with
      | start f queued running done hlt =>
        simpa using hlt
      | finish f queued running done hf =>
        exact le_trans (List.Sublist.length_le (List.erase_sublist _ _)) ih
  · intro n hn
    simp [parseParallelUploads, hn]
  · intro n hn
    simp [parseParallelUploads, hn]

/-- Witness for C9: with three workers, the state after starting the single
submitted upload is reachable and respects the bound, 3 is accepted by the
parser, and 7 is rejected. -/
theorem pool_concurrency_bound_witness :
    (PoolState.mk [] ["a.mp3"] []).running.length ≤ 3 ∧
    parseParallelUploads 3 = some 3 ∧
    parseParallelUploads 7 = none :=
  ⟨(pool_concurrency_bound 3 (by decide) (by decide)).1 ["a.mp3"] ⟨[], ["a.mp3"], []⟩
      (Relation.ReflTransGen.single (PoolStep.start "a.mp3" [] [] [] (by simp))),
   (pool_concurrency_bound 3 (by decide) (by decide)).2.1 3 (by decide),
   (pool_concurrency_bound 3 (by decide) (by decide)).2.2 7 (by decide)⟩

/-- Claim C10: the scanner candidate list is not restricted to regular files:
a non-hidden directory whose name ends in an accepted extension (here the
directory `album.mp3`) is itself included in the output. -/
theorem load_files_includes_directory_with_extension :
    load_files [".mp3"] [] [.dir "album.mp3" [.file "song.mp3"]]
      = [["album.mp3"], ["album.mp3", "song.mp3"]] ∧
    ["album.mp3"] ∈ load_files [".mp3"] [] [.dir "album.mp3" [.file "song.mp3"]] := by
  have h : load_files [".mp3"] [] [.dir "album.mp3" [.file "song.mp3"]]
      = [["album.mp3"], ["album.mp3", "song.mp3"]] := by
    simp only [load_files]
    decide
  exact ⟨h, by rw [h]; decide⟩

theorem load_files_shape (sup : List String) (pre : Path) (es : List FSEntry) :
    ∀ p ∈ load_files sup pre es,
      ∃ suf, p = pre ++ suf ∧ suf ≠ [] ∧ ∀ c ∈ suf, isHidden c = false := by
  induction pre, es using load_files.induct sup with
  | case1 pre =>
    intro p hp
    simp [load_files] at hp
  | case2 pre e rest hmatch ih =>
    intro p hp
    cases e with
    | file n =>
      simp only [load_files, FSEntry.name] at hp
      rcases List.mem_append.mp hp with hp1 | hp2
      · by_cases hhid : isHidden n
        · rw [if_pos hhid] at hp1
          cases hp1
        · rw [if_neg hhid] at hp1
          by_cases hext : splitextExt n ∈ sup
          · rw [if_pos hext] at hp1
            have hpeq : p = pre ++ [n] := by simpa using hp1
            refine ⟨[n], hpeq, by simp, ?_⟩
            intro c hc
            have : c = n := by simpa using hc
            subst this
            simpa using hhid
          · rw [if_neg hext] at hp1
            simp at hp1
      · exact ih p hp2
    | dir n children =>
      simp only at hmatch
      simp only [load_files, FSEntry.name] at hp
      rcases List.mem_append.mp hp with hp1 | hp2
      · by_cases hhid : isHidden n
        · rw [if_pos hhid] at hp1
          cases hp1
        · rw [if_neg hhid] at hp1
          rcases List.mem_append.mp hp1 with hpa | hpb
          · by_cases hext : splitextExt n ∈ sup
            · rw [if_pos hext] at hpa
              have hpeq : p = pre ++ [n] := by simpa using hpa
              refine ⟨[n], hpeq, by simp, ?_⟩
              intro c hc
              have : c = n := by simpa using hc
              subst this
              simpa using hhid
            · rw [if_neg hext] at hpa
              cases hpa
          · obtain ⟨suf, hps, hsne, hall⟩ := hmatch p hpb
            refine ⟨n :: suf, ?_, by simp, ?_⟩
            · rw [hps, List.append_assoc]
              rfl
            · intro c hc
              rcases List.mem_cons.mp hc with hcn | hc'
              · subst hcn
                simpa using hhid
              · exact hall c hc'
      · exact ih p hp2

theorem load_files_mem_singleton_ext (sup : List String) (pre : Path) (name : String) :
    ∀ es : List FSEntry, (pre ++ [name]) ∈ load_files sup pre es → splitextExt name ∈ sup := by
  intro es
  induction es with
  | nil =>
    intro hp
    simp [load_files] at hp
  | cons e rest ih =>
    intro hp
    cases e with
    | file n =>
      simp only [load_files, FSEntry.name] at hp
      rcases List.mem_append.mp hp with hp1 | hp2
      · by_cases hhid : isHidden n
        · rw [if_pos hhid] at hp1
          cases hp1
        · rw [if_neg hhid] at hp1
          by_cases hext : splitextExt n ∈ sup
          · rw [if_pos hext] at hp1
            have hpeq : pre ++ [name] = pre ++ [n] := by simpa using hp1
            have hname : name = n := by simpa using List.append_cancel_left hpeq
            rw [hname]
            exact hext
          · rw [if_neg hext] at hp1
            simp at hp1
      · exact ih hp2
    | dir n children =>
      simp only [load_files, FSEntry.name] at hp
      rcases List.mem_append.mp hp with hp1 | hp2
      · by_cases hhid : isHidden n
        · rw [if_pos hhid] at hp1
          cases hp1
        · rw [if_neg hhid] at hp1
          rcases List.mem_append.mp hp1 with hpa | hpb
          · by_cases hext : splitextExt n ∈ sup
            · rw [if_pos hext] at hpa
              have hpeq : pre ++ [name] = pre ++ [n] := by simpa using hpa
              have hname : name = n := by simpa using List.append_cancel_left hpeq
              rw [hname]
              exact hext
            · rw [if_neg hext] at hpa
              cases hpa
          · obtain ⟨suf, hps, hsne, _⟩ :=
              load_files_shape sup (pre ++ [n]) children _ hpb
            have hcon : suf = [] := by
              have hlen := congrArg List.length hps
              simp only [List.length_append, List.length_cons, List.length_nil] at hlen
              have hz : suf.length = 0 := by omega
              exact List.length_eq_zero.mp hz
            exact absurd hcon hsne
      · exact ih hp2

/-- Claim C3: the scanner never lists an entry whose basename starts with a
dot and never recurses into a hidden directory (every component of every
produced path, below the scanned root, is non-hidden); a regular non-hidden
file is included exactly when its extension (case-sensitive, leading dot
included) is in the accepted set; and on the scenario directory with accepted
set containing `.mp3` and `.flac`, the scanner returns exactly `a.mp3` and
`b.flac`. -/
theorem load_files_scanner_filter :
    (∀ (sup : List String) (pre : Path) (es : List FSEntry) (p : Path),
        p ∈ load_files sup pre es →
        ∃ suf, p = pre ++ suf ∧ suf ≠ [] ∧ ∀ c ∈ suf, isHidden c = false) ∧
    (∀ (sup : List String) (pre : Path) (es : List FSEntry) (name : String),
        isHidden name = false → FSEntry.file name ∈ es →
        ((pre ++ [name]) ∈ load_files sup pre es ↔ splitextExt name ∈ sup)) ∧
    (∀ (sup : List String) (pre : Path) (es : List FSEntry) (name : String),
        isHidden name = true → (pre ++ [name]) ∉ load_files sup pre es) ∧
    load_files [".mp3", ".flac"] [] scanEx = [["a.mp3"], ["b.flac"]] := by
  refine ⟨fun sup pre es p hp => load_files_shape sup pre es p hp, ?_, ?_, ?_⟩
  · intro sup pre es name hhid hmem
    constructor
    · intro hp
      exact load_files_mem_singleton_ext sup pre name es hp
    · intro hext
      induction es with
      | nil => cases hmem
      | cons e rest ih =>
        rcases List.mem_cons.mp hmem with hme | hmr
        · subst hme
          simp only [load_files, FSEntry.name]
          apply List.mem_append.mpr
          left
          rw [if_neg (by simp [hhid]), if_pos hext]
          simp
        · cases e with
          | file n =>
            simp only [load_files, FSEntry.name]
            exact List.mem_append.mpr (Or.inr (ih hmr))
          | dir n children =>
            simp only [load_files, FSEntry.name]
            exact List.mem_append.mpr (Or.inr (ih hmr))
  · intro sup pre es name hhid hp
    obtain ⟨suf, hps, hsne, hall⟩ := load_files_shape sup pre es _ hp
    have hsuf : suf = [name] := by
      have := List.append_cancel_left hps.symm
      simpa using this
    have := hall name (by rw [hsuf]; simp)
    rw [hhid] at this
    cases this
  · simp only [load_files, scanEx]
    decide

/-- Witness for C3: on the scenario directory `a.mp3` is included (its
extension is accepted) and the hidden `.hidden.mp3` is not. -/
theorem load_files_scanner_filter_witness :
    (([] : Path) ++ ["a.mp3"]) ∈ load_files [".mp3", ".flac"] [] scanEx ∧
    (([] : Path) ++ [".hidden.mp3"]) ∉ load_files [".mp3", ".flac"] [] scanEx :=
  ⟨(load_files_scanner_filter.2.1 [".mp3", ".flac"] [] scanEx "a.mp3" (by rfl)
      (List.Mem.head _)).mpr (by decide),
   load_files_scanner_filter.2.2.1 [".mp3", ".flac"] [] scanEx ".hidden.mp3" (by rfl)⟩

end IBroadcast
